import Mathlib

/-!
Shallow embedding of `src/patient_risk_scorer.py` (class `PatientRiskScorer`).

Conventions of the embedding:
* Python strings are modelled as `List Char` (ASCII fragment: `str.upper`,
  `str.strip`, `str.isdigit` and the numeric grammars of `int()` / `float()`
  are modelled on the ASCII characters the program's data uses; Unicode
  digit classes, underscore digit separators and the `inf` / `nan` float
  forms are outside the model).
* Python numbers are modelled exactly: `int` as `ℤ` / `ℕ`, `float` as `ℚ`.
  The program performs no float arithmetic, only order comparisons of parsed
  decimal literals, which agree with the rational order for all values used
  in the development.
* A raw JSON field value is `RawVal`: absent-or-null, a string, an int, or a
  float.  Fallible Python operations (`int(s)`, `float(s)`, parsing) return
  `Option`; `try/except` branches become the `none` cases.
-/

/-- Characters Python's `str.strip` removes (ASCII whitespace). -/
def isSpaceChar (c : Char) : Bool :=
  c.toNat = 32 || c.toNat = 9 || c.toNat = 10 || c.toNat = 13 ||
  c.toNat = 11 || c.toNat = 12

/-- ASCII decimal digit test (`'0'` to `'9'`). -/
def isDigitChar (c : Char) : Bool :=
  48 ≤ c.toNat && c.toNat ≤ 57

/-- ASCII upper-casing of one character, as Python's `str.upper` acts on
ASCII letters. -/
def charUpper (c : Char) : Char :=
  if 97 ≤ c.toNat ∧ c.toNat ≤ 122 then Char.ofNat (c.toNat - 32) else c

/-- Model of `s.upper()` on the ASCII fragment. -/
def listUpper (s : List Char) : List Char :=
  s.map charUpper

/-- Model of `s.strip()`: drop ASCII whitespace from both ends. -/
def pyStrip (s : List Char) : List Char :=
  ((s.dropWhile isSpaceChar).reverse.dropWhile isSpaceChar).reverse

/-- Model of `s.split("/")`: split on every `'/'`. -/
def splitOnSlash : List Char → List (List Char)
  | [] => [[]]
  | c :: rest =>
    if c = '/' then [] :: splitOnSlash rest
    else
      match splitOnSlash rest with
      | [] => [[c]]
      | h :: t => (c :: h) :: t

/-- Accumulator pass of a decimal numeral: value of the digit list `l`
appended to the digits already read into `acc`. -/
def digitsValGo (acc : ℕ) : List Char → ℕ
  | [] => acc
  | c :: rest => digitsValGo (acc * 10 + (c.toNat - 48)) rest

/-- Value of a non-empty all-digit character list; `none` otherwise. -/
def digitsToNatOpt (l : List Char) : Option ℕ :=
  if l.isEmpty then none
  else if l.all isDigitChar then some (digitsValGo 0 l) else none

/-- Model of Python `int(t)` on an already-stripped string: optional sign
followed by a non-empty run of decimal digits; any other form raises
`ValueError`, modelled as `none`. -/
def pyIntOfChars (t : List Char) : Option ℤ :=
  match t with
  | [] => none
  | c :: rest =>
    if c = '+' then (digitsToNatOpt rest).map (fun n => (n : ℤ))
    else if c = '-' then (digitsToNatOpt rest).map (fun n => -(n : ℤ))
    else (digitsToNatOpt (c :: rest)).map (fun n => (n : ℤ))

/-- Splits a float literal at the first `'e'` / `'E'` into mantissa and
optional exponent part. -/
def splitExp : List Char → List Char × Option (List Char)
  | [] => ([], none)
  | c :: rest =>
    if c = 'e' ∨ c = 'E' then ([], some rest)
    else
      match splitExp rest with
      | (m, ex) => (c :: m, ex)

/-- Value of the (possibly empty) digit run `l`; callers guarantee `l` is
all digits. -/
def digitRunVal (l : List Char) : ℕ :=
  digitsValGo 0 l

/-- Mantissa of a Python float literal: `D+`, `D+.D*` or `.D+` (at least one
digit overall). -/
def parseMantissa (t : List Char) : Option ℚ :=
  match t.span isDigitChar with
  | (intPart, rest) =>
    match rest with
    | [] => if intPart.isEmpty then none else some ((digitRunVal intPart : ℚ))
    | c :: frac =>
      if c = '.' then
        if frac.all isDigitChar ∧ ¬(intPart.isEmpty ∧ frac.isEmpty) then
          some ((digitRunVal intPart : ℚ) +
            (digitRunVal frac : ℚ) / (10 : ℚ) ^ frac.length)
        else none
      else none

/-- Unsigned part of a float literal, with optional exponent. -/
def floatMag (t : List Char) : Option ℚ :=
  match splitExp t with
  | (mant, none) => parseMantissa mant
  | (mant, some ex) =>
    match parseMantissa mant, pyIntOfChars ex with
    | some m, some e => some (m * (10 : ℚ) ^ e)
    | _, _ => none

/-- Model of Python `float(s)` on a string: strip whitespace, optional sign,
then a decimal mantissa with optional exponent.  (`inf` / `nan` and
underscore separators are outside the model; the program never feeds them.)
Failure (`ValueError`) is `none`. -/
def pyFloatOfChars (s : List Char) : Option ℚ :=
  match pyStrip s with
  | [] => none
  | c :: rest =>
    if c = '+' then floatMag rest
    else if c = '-' then (floatMag rest).map Neg.neg
    else floatMag (c :: rest)

/-- Decimal rendering of a natural number, most significant digit first
(model of Python `str(n)` for `n ≥ 0`). -/
def natToChars (n : ℕ) : List Char :=
  if h : n < 10 then [Char.ofNat (48 + n)]
  else natToChars (n / 10) ++ [Char.ofNat (48 + n % 10)]
decreasing_by
  exact Nat.div_lt_self (by omega) (by omega)

/-- Decimal rendering of an integer (model of Python `str(n)` on `int`). -/
def intToChars (n : ℤ) : List Char :=
  if n < 0 then '-' :: natToChars n.natAbs else natToChars n.natAbs

/-- A raw JSON field value as the Python code receives it:
absent / `None`, a string, an int, or a float. -/
inductive RawVal where
  | vnone : RawVal
  | vstr : List Char → RawVal
  | vint : ℤ → RawVal
  | vfloat : ℚ → RawVal
deriving DecidableEq

/-- Model of Python `str(x)` on a raw value.  For floats, Python prints the
shortest decimal round-tripping the double; the program only ever observes
that the rendering is non-empty and contains no `'/'` (it is interpolated
into issue messages and, for blood pressure, scanned for `'/'`), so the
rendering of a float here is a simple numeral pair with a `'.'` separator
rather than the exact repr digits. -/
def pyStrOfRaw : RawVal → List Char
  | .vnone => ['N', 'o', 'n', 'e']
  | .vstr s => s
  | .vint n => intToChars n
  | .vfloat q => intToChars q.num ++ '.' :: natToChars q.den

/-- Model of Python `float(x)` on a raw value (`None` raises `TypeError`,
modelled as `none`). -/
def pyFloatOfRaw : RawVal → Option ℚ
  | .vnone => none
  | .vstr s => pyFloatOfChars s
  | .vint n => some ((n : ℚ))
  | .vfloat q => some q

/-- Python `int(x)` on a float truncates toward zero. -/
def ratTrunc (q : ℚ) : ℤ :=
  q.num / (q.den : ℤ)

/-- The sentinel strings `parse_blood_pressure` rejects (compared after
`.upper()`). -/
def bpSentinels : List (List Char) :=
  [['I', 'N', 'V', 'A', 'L', 'I', 'D'],
   ['N', '/', 'A'],
   ['N', 'A'],
   ['N', 'U', 'L', 'L'],
   ['N', 'O', 'N', 'E']]

/-- The sentinel strings `calculate_temp_risk` rejects (compared after
`.upper()`). -/
def tempSentinels : List (List Char) :=
  [['T', 'E', 'M', 'P', '_', 'E', 'R', 'R', 'O', 'R'],
   ['I', 'N', 'V', 'A', 'L', 'I', 'D'],
   ['N', '/', 'A'],
   ['N', 'A'],
   ['N', 'U', 'L', 'L'],
   ['N', 'O', 'N', 'E']]

/-- Body of `parse_blood_pressure` after the `None`/`""` guard and the
`str()` coercion: sentinel check, `"/"` membership check, split into exactly
two parts, then `int(part.strip())` on each side with empty sides and
`ValueError` becoming `None`. -/
def parseBpChars (s : List Char) : Option ℤ × Option ℤ :=
  if listUpper s ∈ bpSentinels then (none, none)
  else if '/' ∈ s then
    match splitOnSlash s with
    | [a, b] =>
      (let t := pyStrip a; if t.isEmpty then none else pyIntOfChars t,
       let t := pyStrip b; if t.isEmpty then none else pyIntOfChars t)
    | _ => (none, none)
  else (none, none)

/-- `parse_blood_pressure(bp_value)`: `None` or `""` give `(None, None)`;
non-strings are coerced with `str()`; then `parseBpChars`. -/
def parse_blood_pressure : RawVal → Option ℤ × Option ℤ
  | .vnone => (none, none)
  | .vstr s => if s.isEmpty then (none, none) else parseBpChars s
  | .vint n => parseBpChars (pyStrOfRaw (.vint n))
  | .vfloat q => parseBpChars (pyStrOfRaw (.vfloat q))

/-- The ordered first-match chain of range predicates in
`calculate_bp_risk` (lines 139-155), including the final defensive
fallback `return 0`. -/
def bpScoreInts (s d : ℤ) : ℕ :=
  if s < 120 ∧ d < 80 then 0
  else if 120 ≤ s ∧ s ≤ 129 ∧ d < 80 then 1
  else if (130 ≤ s ∧ s ≤ 139) ∨ (80 ≤ d ∧ d ≤ 89) then 2
  else if 140 ≤ s ∨ 90 ≤ d then 3
  else 0

/-- The same chain with the defensive fallback removed: the fourth
predicate is the catch-all.  Stated from the spec's words ("else → 0
unreachable under well-formed integers"); compared with `bpScoreInts`
to settle reachability of the fallback. -/
def bpScoreNoFallback (s d : ℤ) : ℕ :=
  if s < 120 ∧ d < 80 then 0
  else if 120 ≤ s ∧ s ≤ 129 ∧ d < 80 then 1
  else if (130 ≤ s ∧ s ≤ 139) ∨ (80 ≤ d ∧ d ≤ 89) then 2
  else 3

/-- `calculate_bp_risk(bp_value)`: score plus optional issue message. -/
def calculate_bp_risk (bp : RawVal) : ℕ × Option (List Char) :=
  match parse_blood_pressure bp with
  | (some s, some d) => (bpScoreInts s d, none)
  | _ =>
    (0, some (['I', 'n', 'v', 'a', 'l', 'i', 'd', ' ', 'B', 'P', ':', ' ']
      ++ pyStrOfRaw bp))

/-- Temperature bucketing of `calculate_temp_risk` (lines 174-179). -/
def tempBucket (t : ℚ) : ℕ × Option (List Char) :=
  if t ≤ 99.5 then (0, none)
  else if 99.6 ≤ t ∧ t ≤ 100.9 then (1, none)
  else (2, none)

/-- Issue message `f"Invalid temperature: {temp_value}"`. -/
def invalidTempMsg (v : RawVal) : List Char :=
  ['I', 'n', 'v', 'a', 'l', 'i', 'd', ' ', 't', 'e', 'm', 'p', 'e', 'r',
   'a', 't', 'u', 'r', 'e', ':', ' '] ++ pyStrOfRaw v

/-- Issue message `f"Missing temperature"`. -/
def missingTempMsg : List Char :=
  ['M', 'i', 's', 's', 'i', 'n', 'g', ' ', 't', 'e', 'm', 'p', 'e', 'r',
   'a', 't', 'u', 'r', 'e']

/-- `calculate_temp_risk(temp_value)`. -/
def calculate_temp_risk : RawVal → ℕ × Option (List Char)
  | .vnone => (0, some missingTempMsg)
  | .vstr s =>
    if s.isEmpty then (0, some missingTempMsg)
    else if listUpper s ∈ tempSentinels then (0, some (invalidTempMsg (.vstr s)))
    else
      match pyFloatOfChars s with
      | some t => tempBucket t
      | none => (0, some (invalidTempMsg (.vstr s)))
  | .vint n => tempBucket ((n : ℚ))
  | .vfloat q => tempBucket q

/-- Age bucketing of `calculate_age_risk` (lines 200-205). -/
def ageBucket (a : ℤ) : ℕ × Option (List Char) :=
  if a < 40 then (0, none)
  else if 40 ≤ a ∧ a ≤ 65 then (1, none)
  else (2, none)

/-- Issue message `f"Invalid age: {age_value}"`. -/
def invalidAgeMsg (v : RawVal) : List Char :=
  ['I', 'n', 'v', 'a', 'l', 'i', 'd', ' ', 'a', 'g', 'e', ':', ' ']
    ++ pyStrOfRaw v

/-- Issue message `f"Missing age"`. -/
def missingAgeMsg : List Char :=
  ['M', 'i', 's', 's', 'i', 'n', 'g', ' ', 'a', 'g', 'e']

/-- Model of Python `s.isdigit()` on the ASCII fragment: non-empty and all
decimal digits. -/
def pyIsDigit (s : List Char) : Bool :=
  !s.isEmpty && s.all isDigitChar

/-- `calculate_age_risk(age_value)`.  Strings must pass `isdigit`; the
`int()` call after a passed `isdigit` check cannot fail (the `except`
branch is the unreachable `none` case here).  Non-string numerics are
coerced with `int()`, truncating floats toward zero. -/
def calculate_age_risk : RawVal → ℕ × Option (List Char)
  | .vnone => (0, some missingAgeMsg)
  | .vstr s =>
    if s.isEmpty then (0, some missingAgeMsg)
    else if !pyIsDigit s then (0, some (invalidAgeMsg (.vstr s)))
    else
      match digitsToNatOpt s with
      | some n => ageBucket ((n : ℤ))
      | none => (0, some (invalidAgeMsg (.vstr s)))
  | .vint n => ageBucket n
  | .vfloat q => ageBucket (ratTrunc q)

/-- The `RiskScore` dataclass. -/
structure RiskScore where
  bp_score : ℕ
  temp_score : ℕ
  age_score : ℕ
  total_score : ℕ
  has_data_issues : Bool
  issues : List (List Char)
deriving DecidableEq

/-- Python truthiness of an `Optional[str]`: not `None` and non-empty
(mirrors `if bp_issue:`). -/
def truthyOpt : Option (List Char) → Bool
  | some (_ :: _) => true
  | _ => false

/-- The issue-list contribution of one scorer result (appended when the
message is truthy). -/
def issuesOf : Option (List Char) → List (List Char)
  | some (c :: r) => [c :: r]
  | _ => []

/-- A fetched patient record, with the fields the program reads.  `none`
in `patient_id` models an absent key; `RawVal.vnone` in a vital models an
absent key or a JSON `null` (both reach the code as Python `None` through
`.get`). -/
structure Patient where
  patient_id : Option String
  blood_pressure : RawVal
  temperature : RawVal
  age : RawVal
deriving DecidableEq

/-- `calculate_risk_score(patient)`: three independent sub-scores, issues
concatenated in BP, temperature, age order, flag set on any truthy issue,
total the sum. -/
def calculate_risk_score (p : Patient) : RiskScore :=
  let bp := calculate_bp_risk p.blood_pressure
  let tp := calculate_temp_risk p.temperature
  let ag := calculate_age_risk p.age
  { bp_score := bp.1
    temp_score := tp.1
    age_score := ag.1
    total_score := bp.1 + tp.1 + ag.1
    has_data_issues := truthyOpt bp.2 || truthyOpt tp.2 || truthyOpt ag.2
    issues := issuesOf bp.2 ++ issuesOf tp.2 ++ issuesOf ag.2 }

/-- The result dictionary of `process_patients`. -/
structure CohortResult where
  high_risk_patients : List String
  fever_patients : List String
  data_quality_issues : List String
  total_patients : ℕ
deriving DecidableEq

/-- Lexicographic comparison of character lists by code point, the order
Python uses to compare strings. -/
def lexLe : List Char → List Char → Bool
  | [], _ => true
  | _ :: _, [] => false
  | a :: as, b :: bs =>
    if a.toNat < b.toNat then true
    else if b.toNat < a.toNat then false
    else lexLe as bs

/-- Python's `≤` on strings: lexicographic by code points. -/
def strLe (a b : String) : Prop :=
  lexLe a.toList b.toList = true

instance : DecidableRel strLe := fun a b => by
  unfold strLe; infer_instance

/-- Python `sorted` on a list of strings.  Sorting is modelled by insertion
sort; since `strLe` is a total antisymmetric order, the result coincides
with any sorted permutation of the input, in particular with Timsort's. -/
def sortStrings (l : List String) : List String :=
  List.insertionSort strLe l

/-- The per-record loop of `process_patients` (lines 239-254), folding the
three cohort lists in input order.  The fever test re-parses the raw
temperature with `float` inside `try/except`. -/
def processLoop : List Patient → List String × List String × List String →
    List String × List String × List String
  | [], acc => acc
  | p :: rest, (hs, fs, ds) =>
    let pid := p.patient_id.getD ("UNKNOWN")
    let risk := calculate_risk_score p
    let hs' := if 4 ≤ risk.total_score then hs ++ [pid] else hs
    let fs' :=
      match pyFloatOfRaw p.temperature with
      | some t => if 99.6 ≤ t then fs ++ [pid] else fs
      | none => fs
    let ds' := if risk.has_data_issues then ds ++ [pid] else ds
    processLoop rest (hs', fs', ds')

/-- `process_patients(patients)`: run the loop, then `sorted` each list. -/
def process_patients (ps : List Patient) : CohortResult :=
  match processLoop ps ([], [], []) with
  | (hs, fs, ds) =>
    { high_risk_patients := sortStrings hs
      fever_patients := sortStrings fs
      data_quality_issues := sortStrings ds
      total_patients := ps.length }

/-- `MAX_RETRIES` (module constant). -/
def MAX_RETRIES : ℕ := 5

/-- The body of one page fetched from the source: `data` (absent key or
falsy response modelled as `none`) and `pagination.hasNext` (absent keys
defaulting to `False`). -/
structure PageBody where
  data : Option (List Patient)
  hasNext : Bool
deriving DecidableEq

/-- Outcome of one HTTP GET of one page at one attempt: a 200 response
with a JSON body, a non-200 status code, or a transport-level exception. -/
inductive FetchOutcome where
  | success : PageBody → FetchOutcome
  | httpStatus : ℕ → FetchOutcome
  | netError : FetchOutcome
deriving DecidableEq

/-- The attempt loop of `fetch_patients_with_retry` over a list of attempt
indices: 200 returns the body; 429/500/503 and transport errors retry
(the sleeps are not modelled); any other status returns `None` at once;
an exhausted list is the "failed after MAX_RETRIES attempts" exit. -/
def retryGo (src : ℕ → ℕ → FetchOutcome) (page : ℕ) :
    List ℕ → Option PageBody
  | [] => none
  | a :: rest =>
    match src page a with
    | .success body => some body
    | .httpStatus c =>
      if c = 429 ∨ c = 500 ∨ c = 503 then retryGo src page rest else none
    | .netError => retryGo src page rest

/-- `fetch_patients_with_retry(page)` against an abstract source `src`
(page number and attempt index determine the outcome). -/
def fetch_patients_with_retry (src : ℕ → ℕ → FetchOutcome) (page : ℕ) :
    Option PageBody :=
  retryGo src page (List.range MAX_RETRIES)

/-- The `while True` loop of `fetch_all_patients`, with explicit fuel
(the source loop is unbounded; every claim is settled at sufficient fuel,
on sources that terminate the loop).  Also returns the list of page
numbers requested, in request order. -/
def fetchAllGo (src : ℕ → ℕ → FetchOutcome) :
    ℕ → ℕ → List Patient → List ℕ → List Patient × List ℕ
  | 0, _, acc, trace => (acc, trace)
  | fuel + 1, page, acc, trace =>
    let trace' := trace ++ [page]
    match fetch_patients_with_retry src page with
    | none => (acc, trace')
    | some body =>
      match body.data with
      | none => (acc, trace')
      | some patients =>
        if patients.isEmpty then (acc, trace')
        else
          if body.hasNext then
            fetchAllGo src fuel (page + 1) (acc ++ patients) trace'
          else (acc ++ patients, trace')

/-- `fetch_all_patients()` against an abstract source, starting at page 1
with empty accumulator. -/
def fetch_all_patients (src : ℕ → ℕ → FetchOutcome) (fuel : ℕ) :
    List Patient × List ℕ :=
  fetchAllGo src fuel 1 [] []

/-- A page-attempt outcome the retry loop continues past: transport error
or status 429/500/503. -/
def transientOutcome (o : FetchOutcome) : Prop :=
  o = .netError ∨ o = .httpStatus 429 ∨ o = .httpStatus 500 ∨
    o = .httpStatus 503

/-- A page-attempt outcome that aborts the fetch at once: any non-200
status outside the retryable set (200 itself is `FetchOutcome.success`). -/
def fatalOutcome (o : FetchOutcome) : Prop :=
  ∃ c, o = .httpStatus c ∧ ¬(c = 429 ∨ c = 500 ∨ c = 503)

/-- Concatenation of a list of record lists (pages in fetch order). -/
def concatAll : List (List Patient) → List Patient
  | [] => []
  | l :: rest => l ++ concatAll rest

/-- The record with no fields at all (`{}`). -/
def emptyPatient : Patient :=
  { patient_id := none
    blood_pressure := .vnone
    temperature := .vnone
    age := .vnone }

/-- The identifier the loop uses for a record:
`patient.get("patient_id", "UNKNOWN")`. -/
def effId (p : Patient) : String :=
  p.patient_id.getD ("UNKNOWN")

/-- Spec-side characterization: high-risk condition of the loop. -/
def isHigh (p : Patient) : Bool :=
  4 ≤ (calculate_risk_score p).total_score

/-- Spec-side characterization: fever condition of the loop (raw
temperature, independently re-parsed with `float`, at least 99.6; parse
failure excludes). -/
def isFever (p : Patient) : Bool :=
  match pyFloatOfRaw p.temperature with
  | some t => 99.6 ≤ t
  | none => false

/-- Spec-side characterization: data-quality condition of the loop. -/
def hasIssues (p : Patient) : Bool :=
  (calculate_risk_score p).has_data_issues

/-- The spec's worked example: BP "150/95", temperature 101, age 70. -/
def examplePatient : Patient :=
  { patient_id := some ("P1")
    blood_pressure := .vstr (("150/95").toList)
    temperature := .vint 101
    age := .vint 70 }

/-- A record whose temperature re-parses numerically to 101. -/
def feverishPatient : Patient :=
  { patient_id := some ("B1")
    blood_pressure := .vnone
    temperature := .vint 101
    age := .vnone }

/-- A record whose temperature fails the plain `float` re-parse (and is
flagged invalid by the risk engine). -/
def garbledTempPatient : Patient :=
  { patient_id := some ("A1")
    blood_pressure := .vnone
    temperature := .vstr (("abc").toList)
    age := .vnone }


/-! ## Order properties of the string comparison -/

theorem lexLe_total : ∀ a b : List Char, lexLe a b = true ∨ lexLe b a = true
  | [], _ => Or.inl rfl
  | _ :: _, [] => Or.inr rfl
  | a :: as, b :: bs => by
    rcases Nat.lt_trichotomy a.toNat b.toNat with h | h | h
    · exact Or.inl (by simp [lexLe, h])
    · rcases lexLe_total as bs with ih | ih
      · exact Or.inl (by simp [lexLe, h, ih])
      · exact Or.inr (by simp [lexLe, h.symm, ih])
    · exact Or.inr (by simp [lexLe, h])

theorem lexLe_head_le {a b : Char} {as bs : List Char}
    (h : lexLe (a :: as) (b :: bs) = true) : a.toNat ≤ b.toNat := by
  simp only [lexLe] at h
  split_ifs at h <;> omega

theorem lexLe_trans : ∀ a b c : List Char,
    lexLe a b = true → lexLe b c = true → lexLe a c = true
  | [], _, _, _, _ => rfl
  | _ :: _, [], _, h, _ => by simp [lexLe] at h
  | _ :: _, _ :: _, [], _, h => by simp [lexLe] at h
  | a :: as, b :: bs, c :: cs, hab, hbc => by
    have h1 : a.toNat ≤ b.toNat := lexLe_head_le hab
    have h2 : b.toNat ≤ c.toNat := lexLe_head_le hbc
    by_cases hac : a.toNat < c.toNat
    · simp [lexLe, hac]
    · have e1 : a.toNat = b.toNat := by omega
      have e2 : b.toNat = c.toNat := by omega
      simp only [lexLe, e1, e2, lt_irrefl, if_false] at hab hbc ⊢
      exact lexLe_trans as bs cs hab hbc

theorem charToNat_inj {a b : Char} (h : a.toNat = b.toNat) : a = b := by
  have hv : a.val = b.val := by
    apply UInt32.eq_of_toBitVec_eq
    apply BitVec.eq_of_toNat_eq
    simpa [UInt32.toNat] using h
  exact Char.eq_of_val_eq hv

theorem lexLe_antisymm : ∀ a b : List Char,
    lexLe a b = true → lexLe b a = true → a = b
  | [], [], _, _ => rfl
  | [], _ :: _, _, h => by simp [lexLe] at h
  | _ :: _, [], h, _ => by simp [lexLe] at h
  | a :: as, b :: bs, hab, hba => by
    have h1 : a.toNat ≤ b.toNat := lexLe_head_le hab
    have h2 : b.toNat ≤ a.toNat := lexLe_head_le hba
    have e : a.toNat = b.toNat := by omega
    have hc : a = b := charToNat_inj e
    subst hc
    simp only [lexLe, lt_irrefl, if_false] at hab hba
    rw [lexLe_antisymm as bs hab hba]

theorem string_ext {s t : String} (h : s.toList = t.toList) : s = t := by
  cases s; cases t
  simp only [String.toList] at h
  exact congrArg String.mk h

instance : IsTotal String strLe :=
  ⟨fun a b => lexLe_total a.toList b.toList⟩

instance : IsTrans String strLe :=
  ⟨fun a b c hab hbc => lexLe_trans a.toList b.toList c.toList hab hbc⟩

instance : IsAntisymm String strLe :=
  ⟨fun a b hab hba => string_ext (lexLe_antisymm a.toList b.toList hab hba)⟩

theorem sortStrings_sorted (l : List String) :
    (sortStrings l).Sorted strLe :=
  List.sorted_insertionSort strLe l

theorem sortStrings_perm (l : List String) : (sortStrings l).Perm l :=
  List.perm_insertionSort strLe l

theorem mem_sortStrings {a : String} {l : List String} :
    a ∈ sortStrings l ↔ a ∈ l :=
  (sortStrings_perm l).mem_iff

theorem sortStrings_eq_of_perm {l₁ l₂ : List String} (h : l₁.Perm l₂) :
    sortStrings l₁ = sortStrings l₂ :=
  List.eq_of_perm_of_sorted
    ((sortStrings_perm l₁).trans (h.trans (sortStrings_perm l₂).symm))
    (sortStrings_sorted l₁) (sortStrings_sorted l₂)

/-! ## The per-record loop as filters over the input -/

theorem processLoop_eq : ∀ (ps : List Patient)
    (acc : List String × List String × List String),
    processLoop ps acc =
      (acc.1 ++ (ps.filter isHigh).map effId,
       acc.2.1 ++ (ps.filter isFever).map effId,
       acc.2.2 ++ (ps.filter hasIssues).map effId)
  | [], acc => by simp [processLoop]
  | p :: rest, (hs, fs, ds) => by
    have e1 :
        (if 4 ≤ (calculate_risk_score p).total_score
          then hs ++ [p.patient_id.getD ("UNKNOWN")] else hs) =
          hs ++ if isHigh p then [effId p] else [] := by
      by_cases h : 4 ≤ (calculate_risk_score p).total_score <;>
        simp [h, isHigh, effId]
    have e2 :
        (match pyFloatOfRaw p.temperature with
          | some t =>
            if 99.6 ≤ t then fs ++ [p.patient_id.getD ("UNKNOWN")] else fs
          | none => fs) =
          fs ++ if isFever p then [effId p] else [] := by
      unfold isFever
      rcases pyFloatOfRaw p.temperature with _ | t
      · simp
      · by_cases ht : 99.6 ≤ t <;> simp [ht, effId]
    have e3 :
        (if (calculate_risk_score p).has_data_issues
          then ds ++ [p.patient_id.getD ("UNKNOWN")] else ds) =
          ds ++ if hasIssues p then [effId p] else [] := by
      by_cases h : (calculate_risk_score p).has_data_issues <;>
        simp [h, hasIssues, effId]
    simp only [processLoop]
    rw [e1, e2, e3, processLoop_eq rest]
    refine Prod.ext ?_ (Prod.ext ?_ ?_) <;>
      simp only [List.filter_cons]
    · by_cases h : isHigh p <;> simp [h, List.append_assoc]
    · by_cases h : isFever p <;> simp [h, List.append_assoc]
    · by_cases h : hasIssues p <;> simp [h, List.append_assoc]

theorem process_patients_eq (ps : List Patient) :
    process_patients ps =
      { high_risk_patients := sortStrings ((ps.filter isHigh).map effId)
        fever_patients := sortStrings ((ps.filter isFever).map effId)
        data_quality_issues := sortStrings ((ps.filter hasIssues).map effId)
        total_patients := ps.length } := by
  unfold process_patients
  rw [processLoop_eq ps ([], [], [])]
  simp

theorem mem_cohort_list {ps : List Patient} {b : Patient → Bool}
    {id : String} :
    id ∈ sortStrings ((ps.filter b).map effId) ↔
      ∃ p, p ∈ ps ∧ id = effId p ∧ b p = true := by
  rw [mem_sortStrings]
  simp only [List.mem_map, List.mem_filter]
  constructor
  · rintro ⟨p, ⟨hp, hb⟩, rfl⟩
    exact ⟨p, hp, rfl, hb⟩
  · rintro ⟨p, hp, rfl, hb⟩
    exact ⟨p, ⟨hp, hb⟩, rfl⟩

/-- C2 (amended): for every input list, each of the three lists returned by
`process_patients` is lexicographically sorted, and the whole result is
invariant under permuting the input records; but duplicates are NOT removed
(see the counterexample): two records with the same identifier that both
qualify produce two equal entries. -/
theorem claim_C2_sorted_order_independent :
    (∀ ps : List Patient,
      (process_patients ps).high_risk_patients.Sorted strLe ∧
      (process_patients ps).fever_patients.Sorted strLe ∧
      (process_patients ps).data_quality_issues.Sorted strLe) ∧
    (∀ ps₁ ps₂ : List Patient, ps₁.Perm ps₂ →
      process_patients ps₁ = process_patients ps₂) := by
  constructor
  · intro ps
    rw [process_patients_eq]
    exact ⟨sortStrings_sorted _, sortStrings_sorted _, sortStrings_sorted _⟩
  · intro ps₁ ps₂ h
    rw [process_patients_eq, process_patients_eq]
    have hlen := h.length_eq
    have hs1 := sortStrings_eq_of_perm ((h.filter isHigh).map effId)
    have hs2 := sortStrings_eq_of_perm ((h.filter isFever).map effId)
    have hs3 := sortStrings_eq_of_perm ((h.filter hasIssues).map effId)
    simp [hlen, hs1, hs2, hs3]

/-- Witness for C2's permutation-invariance part at a concrete pair of
inputs. -/
theorem claim_C2_sorted_order_independent_witness :
    process_patients [examplePatient, emptyPatient] =
      process_patients [emptyPatient, examplePatient] :=
  claim_C2_sorted_order_independent.2 _ _
    (List.Perm.swap emptyPatient examplePatient [])

/-- Counterexample to C2 as stated: two copies of the empty record both
get identifier "UNKNOWN" and both have data issues, so
`data_quality_issues` contains a duplicate identifier (the code applies
`sorted` but never deduplicates). -/
theorem claim_C2_duplicates_counterexample :
    (process_patients [emptyPatient, emptyPatient]).data_quality_issues
      = [("UNKNOWN"), ("UNKNOWN")] ∧
    ¬ (process_patients
        [emptyPatient, emptyPatient]).data_quality_issues.Nodup := by
  exact ⟨by decide, by decide⟩

/-- C5: an identifier is in the high-risk cohort exactly when some input
record carries it (or "UNKNOWN" if absent) and that record's total risk
score is at least 4; the spec's example — BP "150/95", temperature 101,
age 70 — has total score 7 and is high-risk. -/
theorem claim_C5_high_risk_threshold :
    (∀ (ps : List Patient) (id : String),
      id ∈ (process_patients ps).high_risk_patients ↔
        ∃ p, p ∈ ps ∧ id = effId p ∧
          4 ≤ (calculate_risk_score p).total_score) ∧
    (calculate_risk_score examplePatient).total_score = 7 ∧
    ("P1") ∈ (process_patients [examplePatient]).high_risk_patients := by
  have hiff : ∀ (ps : List Patient) (id : String),
      id ∈ (process_patients ps).high_risk_patients ↔
        ∃ p, p ∈ ps ∧ id = effId p ∧
          4 ≤ (calculate_risk_score p).total_score := by
    intro ps id
    rw [process_patients_eq]
    show id ∈ sortStrings ((ps.filter isHigh).map effId) ↔ _
    rw [mem_cohort_list]
    simp [isHigh]
  have hbp : calculate_bp_risk examplePatient.blood_pressure = (3, none) := by
    decide
  have htp : calculate_temp_risk examplePatient.temperature = (2, none) := by
    show calculate_temp_risk (.vint 101) = (2, none)
    norm_num [calculate_temp_risk, tempBucket]
  have hag : calculate_age_risk examplePatient.age = (2, none) := by decide
  have htotal : (calculate_risk_score examplePatient).total_score = 7 := by
    simp [calculate_risk_score, hbp, htp, hag]
  refine ⟨hiff, htotal, ?_⟩
  exact (hiff _ _).mpr ⟨examplePatient, by simp, rfl, by rw [htotal]; omega⟩

/-- C6: an identifier is in the fever cohort exactly when some input record
carries it and that record's raw temperature field, re-parsed independently
with plain `float`, yields a value ≥ 99.6; parse failure (including an
absent field) silently excludes the record, and the risk engine's
invalid-temperature flag plays no role.  Concretely: a record with
temperature "abc" is flagged by the risk engine and is not a fever member;
one with numeric temperature 101 is a fever member. -/
theorem claim_C6_fever_reparse :
    (∀ (ps : List Patient) (id : String),
      id ∈ (process_patients ps).fever_patients ↔
        ∃ p, p ∈ ps ∧ id = effId p ∧
          ∃ t, pyFloatOfRaw p.temperature = some t ∧ 99.6 ≤ t) ∧
    (calculate_temp_risk garbledTempPatient.temperature).2.isSome = true ∧
    ("A1") ∉ (process_patients [garbledTempPatient]).fever_patients ∧
    ("B1") ∈ (process_patients [feverishPatient]).fever_patients := by
  have hiff : ∀ (ps : List Patient) (id : String),
      id ∈ (process_patients ps).fever_patients ↔
        ∃ p, p ∈ ps ∧ id = effId p ∧
          ∃ t, pyFloatOfRaw p.temperature = some t ∧ 99.6 ≤ t := by
    intro ps id
    rw [process_patients_eq]
    show id ∈ sortStrings ((ps.filter isFever).map effId) ↔ _
    rw [mem_cohort_list]
    constructor
    · rintro ⟨p, hp, rfl, hb⟩
      refine ⟨p, hp, rfl, ?_⟩
      unfold isFever at hb
      rcases hpf : pyFloatOfRaw p.temperature with _ | t
      · rw [hpf] at hb; simp at hb
      · rw [hpf] at hb
        simp only [decide_eq_true_eq] at hb
        exact ⟨t, rfl, hb⟩
    · rintro ⟨p, hp, rfl, t, hpf, ht⟩
      refine ⟨p, hp, rfl, ?_⟩
      unfold isFever
      rw [hpf]
      simpa using ht
  refine ⟨hiff, by decide, ?_, ?_⟩
  · intro hmem
    obtain ⟨p, hp, _, t, hpf, _⟩ := (hiff _ _).mp hmem
    have hpe : p = garbledTempPatient := by simpa using hp
    rw [hpe] at hpf
    have : pyFloatOfRaw garbledTempPatient.temperature = none := by decide
    rw [this] at hpf
    exact Option.noConfusion hpf
  · exact (hiff _ _).mpr
      ⟨feverishPatient, by simp, rfl, ⟨101, rfl, by norm_num⟩⟩

/-- C10: a record with no `patient_id` key is not skipped: it is counted
and classified under the substitute identifier "UNKNOWN"; the empty record
`{}` has total score 0, three recorded issues, and lands (only) in the
data-quality list as "UNKNOWN". -/
theorem claim_C10_unknown_id :
    (∀ p : Patient, p.patient_id = none →
      (process_patients [p]).total_patients = 1 ∧
      (∀ id, id ∈ (process_patients [p]).high_risk_patients →
        id = ("UNKNOWN")) ∧
      (∀ id, id ∈ (process_patients [p]).fever_patients →
        id = ("UNKNOWN")) ∧
      (∀ id, id ∈ (process_patients [p]).data_quality_issues →
        id = ("UNKNOWN"))) ∧
    process_patients [emptyPatient] =
      { high_risk_patients := []
        fever_patients := []
        data_quality_issues := [("UNKNOWN")]
        total_patients := 1 } ∧
    (calculate_risk_score emptyPatient).total_score = 0 ∧
    (calculate_risk_score emptyPatient).issues.length = 3 := by
  constructor
  · intro p hid
    have heff : effId p = ("UNKNOWN") := by simp [effId, hid]
    have hmem : ∀ (b : Patient → Bool) (id : String),
        id ∈ sortStrings (([p].filter b).map effId) → id = ("UNKNOWN") := by
      intro b id hmem
      obtain ⟨q, hq, rfl, _⟩ := mem_cohort_list.mp hmem
      have : q = p := by simpa using hq
      rw [this, heff]
    refine ⟨by simp [process_patients_eq], ?_, ?_, ?_⟩ <;>
      { intro id h
        rw [process_patients_eq] at h
        exact hmem _ id h }
  · exact ⟨by decide, by decide, by decide⟩

/-- Witness for C10 at the empty record. -/
theorem claim_C10_unknown_id_witness :
    (process_patients [emptyPatient]).total_patients = 1 :=
  (claim_C10_unknown_id.1 emptyPatient rfl).1

/-! ## Temperature bucket claims -/

/-- C1 (amended): for numeric temperature inputs, the sub-score is 0 iff
temp ≤ 99.5 and 1 iff 99.6 ≤ temp ≤ 100.9, but the three stated cases are
not a partition: the score is 2 exactly when temp > 100.9 OR
99.5 < temp < 99.6 (the gap between the first two ranges also scores 2).
The boundary values 99.5→0, 99.6→1, 100.9→1, 101.0→2 hold exactly. -/
theorem claim_C1_temp_buckets_amended :
    (∀ q : ℚ, calculate_temp_risk (.vfloat q) =
      (if q ≤ 99.5 then 0 else if 99.6 ≤ q ∧ q ≤ 100.9 then 1 else 2,
        none)) ∧
    (∀ q : ℚ, (calculate_temp_risk (.vfloat q)).1 = 2 ↔
      (100.9 < q ∨ (99.5 < q ∧ q < 99.6))) ∧
    calculate_temp_risk (.vfloat 99.5) = (0, none) ∧
    calculate_temp_risk (.vfloat 99.6) = (1, none) ∧
    calculate_temp_risk (.vfloat 100.9) = (1, none) ∧
    calculate_temp_risk (.vfloat 101.0) = (2, none) := by
  have h1 : ∀ q : ℚ, calculate_temp_risk (.vfloat q) =
      (if q ≤ 99.5 then 0 else if 99.6 ≤ q ∧ q ≤ 100.9 then 1 else 2,
        none) := by
    intro q
    show tempBucket q = _
    unfold tempBucket
    split_ifs <;> rfl
  refine ⟨h1, ?_, ?_, ?_, ?_, ?_⟩
  · intro q
    rw [h1]
    split_ifs with ha hb
    · constructor
      · intro h; exact absurd h (by norm_num)
      · rintro (h | ⟨h', h''⟩) <;> (exfalso; linarith)
    · constructor
      · intro h; exact absurd h (by norm_num)
      · rintro (h | ⟨h', h''⟩) <;> (exfalso; rcases hb with ⟨hb1, hb2⟩; linarith)
    · constructor
      · intro _
        push_neg at ha hb
        by_cases hc : 100.9 < q
        · exact Or.inl hc
        · refine Or.inr ⟨ha, ?_⟩
          by_contra hd
          push_neg at hd
          exact absurd (hb hd) (by push_neg; linarith)
      · intro _; rfl
  all_goals norm_num [calculate_temp_risk, tempBucket]

/-- Counterexample to C1 as stated: 99.55 is accepted as numeric, yet its
sub-score is 2 although 99.55 is not greater than 100.9 (it falls in the
gap the three stated cases leave open). -/
theorem claim_C1_temp_gap_counterexample :
    (calculate_temp_risk (.vfloat 99.55)).1 = 2 ∧
    ¬ (100.9 < (99.55 : ℚ)) ∧
    ¬ ((99.55 : ℚ) ≤ 99.5) ∧ ¬ (99.6 ≤ (99.55 : ℚ)) := by
  norm_num [calculate_temp_risk, tempBucket]

/-! ## Sub-score ranges and issue reporting -/

theorem bpScoreInts_le_three (s d : ℤ) : bpScoreInts s d ≤ 3 := by
  unfold bpScoreInts
  split_ifs <;> omega

theorem bp_score_le_three (v : RawVal) : (calculate_bp_risk v).1 ≤ 3 := by
  unfold calculate_bp_risk
  rcases parse_blood_pressure v with ⟨os, od⟩
  rcases os with _ | s <;> rcases od with _ | d <;> simp
  exact bpScoreInts_le_three s d

theorem tempBucket_fst_le_two (t : ℚ) : (tempBucket t).1 ≤ 2 := by
  unfold tempBucket
  split_ifs <;> simp

theorem tempBucket_snd_none (t : ℚ) : (tempBucket t).2 = none := by
  unfold tempBucket
  split_ifs <;> rfl

theorem temp_score_le_two (v : RawVal) : (calculate_temp_risk v).1 ≤ 2 := by
  rcases v with _ | s | n | q
  · simp [calculate_temp_risk]
  · by_cases h1 : s.isEmpty
    · simp [calculate_temp_risk, h1]
    · by_cases h2 : listUpper s ∈ tempSentinels
      · simp [calculate_temp_risk, h1, h2]
      · rcases hf : pyFloatOfChars s with _ | t
        · simp [calculate_temp_risk, h1, h2, hf]
        · simpa [calculate_temp_risk, h1, h2, hf] using
            tempBucket_fst_le_two t
  · exact tempBucket_fst_le_two _
  · exact tempBucket_fst_le_two _

theorem ageBucket_fst_le_two (a : ℤ) : (ageBucket a).1 ≤ 2 := by
  unfold ageBucket
  split_ifs <;> simp

theorem ageBucket_snd_none (a : ℤ) : (ageBucket a).2 = none := by
  unfold ageBucket
  split_ifs <;> rfl

theorem age_score_le_two (v : RawVal) : (calculate_age_risk v).1 ≤ 2 := by
  rcases v with _ | s | n | q
  · simp [calculate_age_risk]
  · by_cases h1 : s.isEmpty
    · simp [calculate_age_risk, h1]
    · by_cases h2 : pyIsDigit s
      · rcases hd : digitsToNatOpt s with _ | k
        · simp [calculate_age_risk, h1, h2, hd]
        · simpa [calculate_age_risk, h1, h2, hd] using
            ageBucket_fst_le_two ((k : ℤ))
      · simp [calculate_age_risk, h1, h2]
  · exact ageBucket_fst_le_two _
  · exact ageBucket_fst_le_two _

theorem bp_issue_spec (v : RawVal) :
    ∀ m, (calculate_bp_risk v).2 = some m →
      (calculate_bp_risk v).1 = 0 ∧ m ≠ [] := by
  intro m hm
  unfold calculate_bp_risk at hm ⊢
  rcases hpd : parse_blood_pressure v with ⟨os, od⟩
  rcases os with _ | s <;> rcases od with _ | d <;> simp_all <;>
    (rintro rfl; simp_all)

theorem temp_issue_spec (v : RawVal) :
    ∀ m, (calculate_temp_risk v).2 = some m →
      (calculate_temp_risk v).1 = 0 ∧ m ≠ [] := by
  intro m hm
  rcases v with _ | s | n | q
  · refine ⟨rfl, ?_⟩
    simp only [calculate_temp_risk, Option.some.injEq] at hm
    rw [← hm]
    simp [missingTempMsg]
  · by_cases h1 : s.isEmpty
    · have hx : calculate_temp_risk (.vstr s) = (0, some missingTempMsg) := by
        simp [calculate_temp_risk, h1]
      rw [hx] at hm
      simp only [Option.some.injEq] at hm
      subst hm
      rw [hx]
      simp [missingTempMsg]
    · by_cases h2 : listUpper s ∈ tempSentinels
      · have hx : calculate_temp_risk (.vstr s) =
            (0, some (invalidTempMsg (.vstr s))) := by
          simp [calculate_temp_risk, h1, h2]
        rw [hx] at hm
        simp only [Option.some.injEq] at hm
        subst hm
        rw [hx]
        simp [invalidTempMsg]
      · rcases hf : pyFloatOfChars s with _ | t
        · have hx : calculate_temp_risk (.vstr s) =
              (0, some (invalidTempMsg (.vstr s))) := by
            simp [calculate_temp_risk, h1, h2, hf]
          rw [hx] at hm
          simp only [Option.some.injEq] at hm
          subst hm
          rw [hx]
          simp [invalidTempMsg]
        · have hx : calculate_temp_risk (.vstr s) = tempBucket t := by
            simp [calculate_temp_risk, h1, h2, hf]
          rw [hx, tempBucket_snd_none] at hm
          exact Option.noConfusion hm
  · have : (calculate_temp_risk (.vint n)).2 = none := tempBucket_snd_none _
    rw [this] at hm
    exact Option.noConfusion hm
  · have : (calculate_temp_risk (.vfloat q)).2 = none := tempBucket_snd_none _
    rw [this] at hm
    exact Option.noConfusion hm

theorem age_issue_spec (v : RawVal) :
    ∀ m, (calculate_age_risk v).2 = some m →
      (calculate_age_risk v).1 = 0 ∧ m ≠ [] := by
  intro m hm
  rcases v with _ | s | n | q
  · refine ⟨rfl, ?_⟩
    simp only [calculate_age_risk, Option.some.injEq] at hm
    rw [← hm]
    simp [missingAgeMsg]
  · by_cases h1 : s.isEmpty
    · have hx : calculate_age_risk (.vstr s) = (0, some missingAgeMsg) := by
        simp [calculate_age_risk, h1]
      rw [hx] at hm
      simp only [Option.some.injEq] at hm
      subst hm
      rw [hx]
      simp [missingAgeMsg]
    · by_cases h2 : pyIsDigit s
      · rcases hd : digitsToNatOpt s with _ | k
        · have hx : calculate_age_risk (.vstr s) =
              (0, some (invalidAgeMsg (.vstr s))) := by
            simp [calculate_age_risk, h1, h2, hd]
          rw [hx] at hm
          simp only [Option.some.injEq] at hm
          subst hm
          rw [hx]
          simp [invalidAgeMsg]
        · have hx : calculate_age_risk (.vstr s) = ageBucket ((k : ℤ)) := by
            simp [calculate_age_risk, h1, h2, hd]
          rw [hx, ageBucket_snd_none] at hm
          exact Option.noConfusion hm
      · have hx : calculate_age_risk (.vstr s) =
            (0, some (invalidAgeMsg (.vstr s))) := by
          simp [calculate_age_risk, h1, h2]
        rw [hx] at hm
        simp only [Option.some.injEq] at hm
        subst hm
        rw [hx]
        simp [invalidAgeMsg]
  · have : (calculate_age_risk (.vint n)).2 = none := ageBucket_snd_none _
    rw [this] at hm
    exact Option.noConfusion hm
  · have : (calculate_age_risk (.vfloat q)).2 = none := ageBucket_snd_none _
    rw [this] at hm
    exact Option.noConfusion hm

theorem truthy_iff (o : Option (List Char)) :
    truthyOpt o = true ↔ issuesOf o ≠ [] := by
  rcases o with _ | (_ | ⟨c, r⟩) <;> simp [truthyOpt, issuesOf]

theorem issuesOf_of_some {o : Option (List Char)} {m : List Char}
    (ho : o = some m) (hm : m ≠ []) : issuesOf o = [m] := by
  rcases m with _ | ⟨c, r⟩
  · exact absurd rfl hm
  · rw [ho]; rfl

/-- C4: the `RiskScore` a record yields is internally consistent:
sub-scores lie in their ranges (BP 0-3, temperature 0-2, age 0-2); the
total is their sum; `has_data_issues` holds exactly when the issues list
is non-empty; and an invalid or missing vital contributes sub-score 0
together with a non-empty recorded issue and a raised flag. -/
theorem claim_C4_riskscore_invariants :
    ∀ p : Patient,
      (calculate_risk_score p).bp_score ≤ 3 ∧
      (calculate_risk_score p).temp_score ≤ 2 ∧
      (calculate_risk_score p).age_score ≤ 2 ∧
      (calculate_risk_score p).total_score =
        (calculate_risk_score p).bp_score +
        (calculate_risk_score p).temp_score +
        (calculate_risk_score p).age_score ∧
      ((calculate_risk_score p).has_data_issues = true ↔
        (calculate_risk_score p).issues ≠ []) ∧
      (∀ m, (calculate_bp_risk p.blood_pressure).2 = some m →
        (calculate_risk_score p).bp_score = 0 ∧
        m ∈ (calculate_risk_score p).issues ∧ m ≠ [] ∧
        (calculate_risk_score p).has_data_issues = true) ∧
      (∀ m, (calculate_temp_risk p.temperature).2 = some m →
        (calculate_risk_score p).temp_score = 0 ∧
        m ∈ (calculate_risk_score p).issues ∧ m ≠ [] ∧
        (calculate_risk_score p).has_data_issues = true) ∧
      (∀ m, (calculate_age_risk p.age).2 = some m →
        (calculate_risk_score p).age_score = 0 ∧
        m ∈ (calculate_risk_score p).issues ∧ m ≠ [] ∧
        (calculate_risk_score p).has_data_issues = true) := by
  intro p
  refine ⟨bp_score_le_three _, temp_score_le_two _, age_score_le_two _,
    rfl, ?_, ?_, ?_, ?_⟩
  · show (truthyOpt _ || truthyOpt _ || truthyOpt _) = true ↔ _
    simp only [Bool.or_eq_true, truthy_iff]
    show _ ↔ issuesOf _ ++ issuesOf _ ++ issuesOf _ ≠ []
    simp only [ne_eq, List.append_eq_nil]
    tauto
  · intro m hm
    obtain ⟨hz, hne⟩ := bp_issue_spec _ m hm
    have hiss := issuesOf_of_some hm hne
    refine ⟨hz, ?_, hne, ?_⟩
    · show m ∈ issuesOf _ ++ issuesOf _ ++ issuesOf _
      rw [hiss]
      simp
    · show (truthyOpt _ || truthyOpt _ || truthyOpt _) = true
      have : truthyOpt (calculate_bp_risk p.blood_pressure).2 = true := by
        rw [truthy_iff, hiss]
        simp
      simp [this]
  · intro m hm
    obtain ⟨hz, hne⟩ := temp_issue_spec _ m hm
    have hiss := issuesOf_of_some hm hne
    refine ⟨hz, ?_, hne, ?_⟩
    · show m ∈ issuesOf _ ++ issuesOf _ ++ issuesOf _
      rw [hiss]
      simp
    · show (truthyOpt _ || truthyOpt _ || truthyOpt _) = true
      have : truthyOpt (calculate_temp_risk p.temperature).2 = true := by
        rw [truthy_iff, hiss]
        simp
      simp [this]
  · intro m hm
    obtain ⟨hz, hne⟩ := age_issue_spec _ m hm
    have hiss := issuesOf_of_some hm hne
    refine ⟨hz, ?_, hne, ?_⟩
    · show m ∈ issuesOf _ ++ issuesOf _ ++ issuesOf _
      rw [hiss]
      simp
    · show (truthyOpt _ || truthyOpt _ || truthyOpt _) = true
      have : truthyOpt (calculate_age_risk p.age).2 = true := by
        rw [truthy_iff, hiss]
        simp
      simp [this]

/-- Witness for C4 at the empty record: the missing blood pressure is
reported with sub-score 0 and a raised flag. -/
theorem claim_C4_riskscore_invariants_witness :
    (calculate_risk_score emptyPatient).bp_score = 0 ∧
    (calculate_risk_score emptyPatient).has_data_issues = true :=
  have h := (claim_C4_riskscore_invariants emptyPatient).2.2.2.2.2.1
    (pyStrOfRaw RawVal.vnone |> fun r =>
      ['I', 'n', 'v', 'a', 'l', 'i', 'd', ' ', 'B', 'P', ':', ' '] ++ r)
    (by decide)
  ⟨h.1, h.2.2.2⟩

/-! ## Decimal numerals parse back to their value -/

theorem digitCharToNat {d : ℕ} (h : d < 10) :
    (Char.ofNat (48 + d)).toNat = 48 + d := by
  interval_cases d <;> decide

theorem natToChars_ne_nil (n : ℕ) : natToChars n ≠ [] := by
  rw [natToChars]
  split_ifs <;> simp

theorem natToChars_digits (n : ℕ) :
    ∀ c ∈ natToChars n, isDigitChar c = true := by
  induction n using Nat.strong_induction_on with
  | _ n ih =>
    intro c hc
    rw [natToChars] at hc
    split_ifs at hc with h
    · simp only [List.mem_singleton] at hc
      subst hc
      simp only [isDigitChar, digitCharToNat h, Bool.and_eq_true,
        decide_eq_true_eq]
      omega
    · rcases List.mem_append.mp hc with h1 | h1
      · exact ih (n / 10) (Nat.div_lt_self (by omega) (by omega)) c h1
      · simp only [List.mem_singleton] at h1
        subst h1
        have hlt : n % 10 < 10 := Nat.mod_lt _ (by omega)
        simp only [isDigitChar, digitCharToNat hlt, Bool.and_eq_true,
          decide_eq_true_eq]
        omega

theorem digitsValGo_append (acc : ℕ) (xs ys : List Char) :
    digitsValGo acc (xs ++ ys) = digitsValGo (digitsValGo acc xs) ys := by
  induction xs generalizing acc with
  | nil => rfl
  | cons c rest ih =>
    show digitsValGo (acc * 10 + (c.toNat - 48)) (rest ++ ys) =
      digitsValGo (digitsValGo (acc * 10 + (c.toNat - 48)) rest) ys
    exact ih _

theorem digitsValGo_singleton (a : ℕ) (c : Char) :
    digitsValGo a [c] = a * 10 + (c.toNat - 48) := rfl

theorem digitsValGo_natToChars (n : ℕ) : ∀ acc : ℕ,
    digitsValGo acc (natToChars n) =
      acc * 10 ^ (natToChars n).length + n := by
  induction n using Nat.strong_induction_on with
  | _ n ih =>
    intro acc
    rw [natToChars]
    split_ifs with h
    · rw [digitsValGo_singleton, List.length_singleton, pow_one,
        digitCharToNat h]
      omega
    · have hdiv : n / 10 < n := Nat.div_lt_self (by omega) (by omega)
      have hlt : n % 10 < 10 := Nat.mod_lt _ (by omega)
      rw [digitsValGo_append, ih (n / 10) hdiv, digitsValGo_singleton,
        digitCharToNat hlt, List.length_append, List.length_singleton]
      have hdm : n / 10 * 10 + n % 10 = n := by omega
      calc (acc * 10 ^ (natToChars (n / 10)).length + n / 10) * 10 +
            (48 + n % 10 - 48)
          = acc * (10 ^ (natToChars (n / 10)).length * 10) +
            (n / 10 * 10 + n % 10) := by ring_nf; omega
        _ = acc * 10 ^ ((natToChars (n / 10)).length + 1) + n := by
            rw [hdm, pow_succ]

theorem digitsToNatOpt_natToChars (n : ℕ) :
    digitsToNatOpt (natToChars n) = some n := by
  have hne : (natToChars n).isEmpty = false := by
    simp [List.isEmpty_iff, natToChars_ne_nil n]
  have hall : (natToChars n).all isDigitChar = true :=
    List.all_eq_true.mpr (natToChars_digits n)
  simp only [digitsToNatOpt, hne, hall, Bool.false_eq_true, if_false,
    if_true]
  rw [show digitsValGo 0 (natToChars n) = n by
    simpa using digitsValGo_natToChars n 0]

theorem digit_excludes {c : Char} (h : isDigitChar c = true) :
    c ≠ '+' ∧ c ≠ '-' ∧ c ≠ '/' ∧ isSpaceChar c = false := by
  simp only [isDigitChar, Bool.and_eq_true, decide_eq_true_eq] at h
  refine ⟨?_, ?_, ?_, ?_⟩
  · rintro rfl; revert h; decide
  · rintro rfl; revert h; decide
  · rintro rfl; revert h; decide
  · simp only [isSpaceChar, Bool.or_eq_false_iff, decide_eq_false_iff_not]
    omega

theorem dropWhile_space_of_digits {l : List Char}
    (h : ∀ c ∈ l, isDigitChar c = true) :
    l.dropWhile isSpaceChar = l := by
  cases l with
  | nil => rfl
  | cons c rest =>
    have := (digit_excludes (h c (by simp))).2.2.2
    simp [List.dropWhile_cons, this]

theorem pyStrip_of_digits {l : List Char}
    (h : ∀ c ∈ l, isDigitChar c = true) : pyStrip l = l := by
  unfold pyStrip
  rw [dropWhile_space_of_digits h, dropWhile_space_of_digits (by
    intro c hc
    exact h c (List.mem_reverse.mp hc)), List.reverse_reverse]

theorem pyIntOfChars_natToChars (n : ℕ) :
    pyIntOfChars (natToChars n) = some ((n : ℤ)) := by
  obtain ⟨c, rest, hcr⟩ := List.exists_cons_of_ne_nil (natToChars_ne_nil n)
  have hc : isDigitChar c = true := by
    apply natToChars_digits n
    rw [hcr]; simp
  obtain ⟨hp, hmn, _, _⟩ := digit_excludes hc
  rw [hcr]
  simp only [pyIntOfChars, hp, hmn, if_false]
  rw [← hcr, digitsToNatOpt_natToChars]
  rfl

theorem noSlash_of_digits {l : List Char}
    (h : ∀ c ∈ l, isDigitChar c = true) : ∀ c ∈ l, c ≠ '/' := by
  intro c hc
  exact (digit_excludes (h c hc)).2.2.1

theorem splitOnSlash_noSlash {l : List Char} (h : ∀ c ∈ l, c ≠ '/') :
    splitOnSlash l = [l] := by
  induction l with
  | nil => rfl
  | cons c rest ih =>
    have hc : c ≠ '/' := h c (by simp)
    have hrest := ih (fun x hx => h x (by simp [hx]))
    simp [splitOnSlash, hc, hrest]

theorem splitOnSlash_append {a b : List Char} (ha : ∀ c ∈ a, c ≠ '/') :
    splitOnSlash (a ++ '/' :: b) = a :: splitOnSlash b := by
  induction a with
  | nil => simp [splitOnSlash]
  | cons c rest ih =>
    have hc : c ≠ '/' := ha c (by simp)
    have hrest := ih (fun x hx => ha x (by simp [hx]))
    rw [List.cons_append]
    simp only [splitOnSlash, hc, if_false, hrest]

theorem charUpper_digit {c : Char} (h : isDigitChar c = true) :
    charUpper c = c := by
  simp only [isDigitChar, Bool.and_eq_true, decide_eq_true_eq] at h
  unfold charUpper
  rw [if_neg]
  omega

theorem digit_head_not_bp_sentinel {c : Char} {rest : List Char}
    (h : isDigitChar c = true) :
    listUpper (c :: rest) ∉ bpSentinels := by
  intro hmem
  have hhead : listUpper (c :: rest) = c :: listUpper rest := by
    simp [listUpper, charUpper_digit h]
  rw [hhead] at hmem
  simp only [isDigitChar, Bool.and_eq_true, decide_eq_true_eq] at h
  simp only [bpSentinels, List.mem_cons, List.not_mem_nil, or_false] at hmem
  rcases hmem with h1 | h1 | h1 | h1 | h1 <;>
    (obtain ⟨hc, -⟩ := List.cons_eq_cons.mp h1; subst hc; revert h; decide)

theorem parseBpChars_numeral (s d : ℕ) :
    parseBpChars (natToChars s ++ '/' :: natToChars d) =
      (some ((s : ℤ)), some ((d : ℤ))) := by
  obtain ⟨c, rest, hcr⟩ := List.exists_cons_of_ne_nil (natToChars_ne_nil s)
  have hcd : isDigitChar c = true := by
    apply natToChars_digits s
    rw [hcr]; simp
  have hsent : listUpper (natToChars s ++ '/' :: natToChars d) ∉
      bpSentinels := by
    rw [hcr, List.cons_append]
    exact digit_head_not_bp_sentinel hcd
  have hslash : '/' ∈ natToChars s ++ '/' :: natToChars d := by simp
  have hsplit : splitOnSlash (natToChars s ++ '/' :: natToChars d) =
      [natToChars s, natToChars d] := by
    rw [splitOnSlash_append (noSlash_of_digits (natToChars_digits s)),
      splitOnSlash_noSlash (noSlash_of_digits (natToChars_digits d))]
  unfold parseBpChars
  rw [if_neg hsent, if_pos hslash, hsplit]
  simp [pyStrip_of_digits (natToChars_digits s),
    pyStrip_of_digits (natToChars_digits d), List.isEmpty_iff,
    natToChars_ne_nil, pyIntOfChars_natToChars]

theorem parse_blood_pressure_numeral (s d : ℕ) :
    parse_blood_pressure (.vstr (natToChars s ++ '/' :: natToChars d)) =
      (some ((s : ℤ)), some ((d : ℤ))) := by
  have hne : (natToChars s ++ '/' :: natToChars d).isEmpty = false := by
    simp [List.isEmpty_iff]
  simp only [parse_blood_pressure, hne, Bool.false_eq_true, if_false]
  exact parseBpChars_numeral s d

/-- C3: every well-formed "S/D" blood-pressure string with S, D ≥ 0 parses
and is scored by the ordered first-match chain `bpScoreInts` (Normal 0,
Elevated 1, Stage-1 2, Stage-2 3, defensive fallback 0), with no issue and
a score in {0,1,2,3}; the six boundary pairs evaluate exactly as stated. -/
theorem claim_C3_bp_first_match :
    (∀ s d : ℕ,
      calculate_bp_risk (.vstr (natToChars s ++ '/' :: natToChars d)) =
        (bpScoreInts ((s : ℤ)) ((d : ℤ)), none) ∧
      bpScoreInts ((s : ℤ)) ((d : ℤ)) ≤ 3) ∧
    calculate_bp_risk (.vstr (("119/79").toList)) = (0, none) ∧
    calculate_bp_risk (.vstr (("120/79").toList)) = (1, none) ∧
    calculate_bp_risk (.vstr (("129/79").toList)) = (1, none) ∧
    calculate_bp_risk (.vstr (("130/79").toList)) = (2, none) ∧
    calculate_bp_risk (.vstr (("139/89").toList)) = (2, none) ∧
    calculate_bp_risk (.vstr (("140/90").toList)) = (3, none) := by
  refine ⟨?_, by decide, by decide, by decide, by decide, by decide,
    by decide⟩
  intro s d
  refine ⟨?_, bpScoreInts_le_three _ _⟩
  unfold calculate_bp_risk
  rw [parse_blood_pressure_numeral]

/-- C9: for every pair of integers a successful parse can produce
(including negative ones), the four first-match predicates cover all
cases, so the defensive fallback `return 0` is unreachable: the chain
with the fallback agrees everywhere with the chain whose fourth predicate
is the catch-all. -/
theorem claim_C9_fallback_unreachable :
    ∀ s d : ℤ, bpScoreInts s d = bpScoreNoFallback s d ∧
      ((s < 120 ∧ d < 80) ∨ (120 ≤ s ∧ s ≤ 129 ∧ d < 80) ∨
        ((130 ≤ s ∧ s ≤ 139) ∨ (80 ≤ d ∧ d ≤ 89)) ∨
        (140 ≤ s ∨ 90 ≤ d)) := by
  intro s d
  constructor
  · unfold bpScoreInts bpScoreNoFallback
    split_ifs <;> omega
  · omega

/-! ## The retrying fetch loop -/

theorem retryGo_none_of_transient (src : ℕ → ℕ → FetchOutcome) (page : ℕ) :
    ∀ l : List ℕ, (∀ a ∈ l, transientOutcome (src page a)) →
      retryGo src page l = none := by
  intro l
  induction l with
  | nil => intro _; rfl
  | cons a rest ih =>
    intro h
    have ha := h a (by simp)
    have hrest := ih (fun x hx => h x (by simp [hx]))
    rcases ha with h1 | h1 | h1 | h1 <;> simp [retryGo, h1, hrest]

theorem retryGo_none_of_fatal (src : ℕ → ℕ → FetchOutcome) (page : ℕ) :
    ∀ (n a0 j : ℕ), j < n →
      (∀ i, i < j → transientOutcome (src page (a0 + i))) →
      fatalOutcome (src page (a0 + j)) →
      retryGo src page (List.range' a0 n) = none := by
  intro n
  induction n with
  | zero => intro a0 j hj; omega
  | succ m ih =>
    intro a0 j hj htrans hfatal
    have hr : List.range' a0 (m + 1) = a0 :: List.range' (a0 + 1) m := rfl
    rw [hr]
    rcases j with _ | j'
    · obtain ⟨c, hc, hcn⟩ := hfatal
      rw [show a0 + 0 = a0 by omega] at hc
      simp [retryGo, hc, hcn]
    · have h0 : transientOutcome (src page a0) := by
        have := htrans 0 (by omega)
        rwa [show a0 + 0 = a0 by omega] at this
      have hrec : retryGo src page (List.range' (a0 + 1) m) = none := by
        apply ih (a0 + 1) j' (by omega)
        · intro i hi
          have := htrans (i + 1) (by omega)
          rwa [show a0 + (i + 1) = a0 + 1 + i by omega] at this
        · rwa [show a0 + (j' + 1) = a0 + 1 + j' by omega] at hfatal
      rcases h0 with h1 | h1 | h1 | h1 <;> simp [retryGo, h1, hrec]

theorem fetch_retry_none (src : ℕ → ℕ → FetchOutcome) (k : ℕ)
    (hfail : (∀ a, a < MAX_RETRIES → transientOutcome (src k a)) ∨
      (∃ j, j < MAX_RETRIES ∧ (∀ i, i < j → transientOutcome (src k i)) ∧
        fatalOutcome (src k j))) :
    fetch_patients_with_retry src k = none := by
  unfold fetch_patients_with_retry
  rcases hfail with h | ⟨j, hj, htrans, hfatal⟩
  · apply retryGo_none_of_transient
    intro a ha
    exact h a (List.mem_range.mp ha)
  · rw [List.range_eq_range']
    apply retryGo_none_of_fatal src k MAX_RETRIES 0 j hj
    · intro i hi
      rw [Nat.zero_add]
      exact htrans i hi
    · rwa [Nat.zero_add]

theorem fetchAllGo_run (src : ℕ → ℕ → FetchOutcome)
    (recsOf : ℕ → List Patient) (bodyOf : ℕ → PageBody) :
    ∀ (n page : ℕ) (acc : List Patient) (trace : List ℕ) (fuel : ℕ),
      n < fuel →
      (∀ p, page ≤ p → p < page + n →
        fetch_patients_with_retry src p = some (bodyOf p) ∧
        (bodyOf p).data = some (recsOf p) ∧ recsOf p ≠ [] ∧
        (bodyOf p).hasNext = true) →
      fetch_patients_with_retry src (page + n) = none →
      (fetchAllGo src fuel page acc trace).1 =
        acc ++ concatAll ((List.range' page n).map recsOf) := by
  intro n
  induction n with
  | zero =>
    intro page acc trace fuel hfuel _ hnone
    rcases fuel with _ | f
    · omega
    · rw [Nat.add_zero] at hnone
      simp [fetchAllGo, hnone, concatAll]
  | succ m ih =>
    intro page acc trace fuel hfuel hprev hnone
    rcases fuel with _ | f
    · omega
    · obtain ⟨hr, hd, hne, hnx⟩ := hprev page (le_refl page) (by omega)
      have hstep :
          (fetchAllGo src (f + 1) page acc trace).1 =
            (fetchAllGo src f (page + 1) (acc ++ recsOf page)
              (trace ++ [page])).1 := by
        simp [fetchAllGo, hr, hd, hne, hnx, List.isEmpty_iff]
      rw [hstep]
      have hrec := ih (page + 1) (acc ++ recsOf page) (trace ++ [page]) f
        (by omega)
        (fun p hp1 hp2 => hprev p (by omega) (by omega))
        (by rwa [show page + 1 + m = page + (m + 1) by omega])
      rw [hrec]
      have hr' : List.range' page (m + 1) = page :: List.range' (page + 1) m :=
        rfl
      rw [hr']
      simp [concatAll, List.append_assoc]

/-- C7: against a source answering page 1 with a non-empty page marked
`hasNext`, page 2 with a non-empty page marked no-next (both on the first
attempt), the fetcher returns exactly page 1's records followed by page
2's, and the pages requested are exactly 1 and 2 — no third request. -/
theorem claim_C7_two_pages (src : ℕ → ℕ → FetchOutcome)
    (p1 p2 : List Patient) (b1 b2 : PageBody) (fuel : ℕ)
    (h1 : src 1 0 = .success b1) (hd1 : b1.data = some p1)
    (hne1 : p1 ≠ []) (hnx1 : b1.hasNext = true)
    (h2 : src 2 0 = .success b2) (hd2 : b2.data = some p2)
    (hne2 : p2 ≠ []) (hnx2 : b2.hasNext = false)
    (hfuel : 2 ≤ fuel) :
    fetch_all_patients src fuel = (p1 ++ p2, [1, 2]) := by
  obtain ⟨f, rfl⟩ : ∃ f, fuel = f + 2 := ⟨fuel - 2, by omega⟩
  have hr1 : fetch_patients_with_retry src 1 = some b1 := by
    show retryGo src 1 (List.range 5) = some b1
    rw [show List.range 5 = [0, 1, 2, 3, 4] from rfl]
    simp [retryGo, h1]
  have hr2 : fetch_patients_with_retry src 2 = some b2 := by
    show retryGo src 2 (List.range 5) = some b2
    rw [show List.range 5 = [0, 1, 2, 3, 4] from rfl]
    simp [retryGo, h2]
  show fetchAllGo src (f + 2) 1 [] [] = (p1 ++ p2, [1, 2])
  have hstep1 : fetchAllGo src (f + 2) 1 [] [] =
      fetchAllGo src (f + 1) 2 ([] ++ p1) ([] ++ [1]) := by
    simp [fetchAllGo, hr1, hd1, hnx1, List.isEmpty_iff, hne1]
  have hstep2 : fetchAllGo src (f + 1) 2 ([] ++ p1) ([] ++ [1]) =
      (([] ++ p1) ++ p2, ([] ++ [1]) ++ [2]) := by
    simp [fetchAllGo, hr2, hd2, hnx2, List.isEmpty_iff, hne2]
  rw [hstep1, hstep2]
  simp

/-- Witness for C7 against a concrete two-page source. -/
theorem claim_C7_two_pages_witness :
    fetch_all_patients
      (fun page _ =>
        if page = 1 then .success ⟨some [emptyPatient], true⟩
        else .success ⟨some [examplePatient], false⟩) 2 =
      ([emptyPatient] ++ [examplePatient], [1, 2]) :=
  claim_C7_two_pages _ [emptyPatient] [examplePatient]
    ⟨some [emptyPatient], true⟩ ⟨some [examplePatient], false⟩ 2
    rfl rfl (by simp) rfl rfl rfl (by simp) rfl (by omega)

/-- C8: if every page before `k` succeeds with a non-empty page marked
`hasNext` and page `k`'s requests ultimately fail — transient outcomes
(429/500/503 or transport error) on all `MAX_RETRIES` attempts, or a
fatal non-200 status at the first non-transient attempt — then the
fetcher returns exactly the records accumulated from pages 1..k-1
(possibly none), without raising. -/
theorem claim_C8_failed_page_truncates (src : ℕ → ℕ → FetchOutcome)
    (recsOf : ℕ → List Patient) (bodyOf : ℕ → PageBody) (k fuel : ℕ)
    (hk : 1 ≤ k) (hkf : k ≤ fuel)
    (hprev : ∀ p, 1 ≤ p → p < k →
      fetch_patients_with_retry src p = some (bodyOf p) ∧
      (bodyOf p).data = some (recsOf p) ∧ recsOf p ≠ [] ∧
      (bodyOf p).hasNext = true)
    (hfail : (∀ a, a < MAX_RETRIES → transientOutcome (src k a)) ∨
      (∃ j, j < MAX_RETRIES ∧ (∀ i, i < j → transientOutcome (src k i)) ∧
        fatalOutcome (src k j))) :
    (fetch_all_patients src fuel).1 =
      concatAll ((List.range' 1 (k - 1)).map recsOf) := by
  have hnone : fetch_patients_with_retry src k = none :=
    fetch_retry_none src k hfail
  have h := fetchAllGo_run src recsOf bodyOf (k - 1) 1 [] [] fuel
    (by omega)
    (fun p hp1 hp2 => hprev p hp1 (by omega))
    (by rw [show 1 + (k - 1) = k by omega]; exact hnone)
  simpa using h

/-- Witness for C8: a source that answers 500 on every attempt yields the
empty record list. -/
theorem claim_C8_failed_page_truncates_witness :
    (fetch_all_patients (fun _ _ => .httpStatus 500) 1).1 = [] := by
  have h := claim_C8_failed_page_truncates (fun _ _ => .httpStatus 500)
    (fun _ => []) (fun _ => ⟨none, false⟩) 1 1 (by omega) (by omega)
    (fun p hp1 hp2 => absurd hp2 (by omega))
    (Or.inl (fun a _ => Or.inr (Or.inr (Or.inl rfl))))
  simpa [concatAll] using h
